import Mathlib

/-!
Verification of the WWF-Sweden/ITR-UI result-orchestration and
grouped-aggregation pipeline (src/app/charts.py, src/app/actions.py,
src/app/ui.py), shallowly embedded in Lean.

Strings from the Python side are modelled as `List Char`; scores as `ℚ`;
`None`/exceptions as `Option`/`Except`.
-/

namespace ITRUI
/-- Categorical values (e.g. a sector or region name), modelled as a
character list, mirroring a Python `str`. -/
abbrev Val := List Char

/-- A composite grouping key, also a Python `str`. -/
abbrev Key := List Char

/-- The fixed composite-key delimiter used by `plot_grouped_heatmap`
(charts.py): `'-'`. -/
def delim : Char := '-'

/-- Embedding of Python `s.split('-')` (no maxsplit): splits `s` at every
occurrence of `delim`, keeping empty pieces, and yields `[s]` (`[""]` for
the empty string) when the delimiter is absent. -/
def splitOnDelim : List Char → List (List Char)
  | [] => [[]]
  | c :: rest =>
    if c = delim then [] :: splitOnDelim rest
    else
      match splitOnDelim rest with
      | [] => [[c]]
      | h :: t => (c :: h) :: t

/-- `encode(value1, value2)`: charts.py builds the composite key as
`item_group_1 + '-' + item_group_2` (line 206). -/
def encodeKey (v1 v2 : Val) : Key := v1 ++ delim :: v2

/-- `decode(key)`: charts.py line 195 does
`item_group_1, item_group_2 = combination.split('-')` — a two-way unpack of
the full split.  It succeeds (yields the two pieces) exactly when the split
has exactly two components, i.e. the key contains exactly one delimiter;
any other key makes the unpack raise, modelled as `none`. -/
def decodeKey (k : Key) : Option (Val × Val) :=
  match splitOnDelim k with
  | [a, b] => some (a, b)
  | _ => none

/-- One aggregation cell of the engine's nested result; the code reads its
`score` field (charts.py line 208, actions.py line 58).  Scores are
modelled as rationals. -/
structure AggCell where
  score : ℚ
  deriving DecidableEq

/-- Python dict lookup on an association list with distinct keys (the
`aggregations[key]` / `y.get('all')` accesses). -/
def lookupKey : List (Key × AggCell) → Key → Option AggCell
  | [], _ => none
  | (k, c) :: rest, key => if k = key then some c else lookupKey rest key

/-- The literal group key `"all"` of the ungrouped aggregation
(actions.py line 58). -/
def allKey : Key := ['a', 'l', 'l']

/-- Rounding to 2 decimal places, as applied by
`round(y['all']['score'], 2)` in actions.py line 58.  The tie-breaking
convention is irrelevant to the properties proved here; one fixed rule is
used throughout. -/
def round2 (q : ℚ) : ℚ := (round (q * 100) : ℤ) / 100

/-- The engine's hierarchical aggregation result restricted to the
ungrouped path: for each (time frame, scope) either no entry (`None` in the
pydantic dump) or a dict from group keys to cells. -/
abbrev AggSlice := Option (List (Key × AggCell))

/-- Embedding of the per-cell reshaping lambda of actions.py lines 56-60:
`round(y['all']['score'], 2) if y and y.get('all') and 'score' in y['all']
else None`.  Python truthiness: `y` is falsy when `None` or the empty dict;
a present cell dict is non-empty (it has a `score` field), hence truthy,
and `'score' in y['all']` holds. -/
def reshapeCell (y : AggSlice) : Option ℚ :=
  match y with
  | none => none
  | some m =>
    if m = [] then none
    else
      match lookupKey m allKey with
      | some c => some (round2 c.score)
      | none => none

/-- An aggregation tree: time frame → scope → optional group-key dict. -/
abbrev AggTree (TimeFrame Scope : Type) :=
  TimeFrame → Scope → AggSlice

/-- The reshaped aggregated table's cell for a requested
(time frame, scope) pair (actions.py lines 55-60). -/
def reshapedCellOf {TimeFrame Scope : Type} (t : AggTree TimeFrame Scope)
    (tf : TimeFrame) (sc : Scope) : Option ℚ :=
  reshapeCell (t tf sc)

/-- Lexicographic string comparison by character code, as Python's `<=` on
`str` (used implicitly by `sorted(...)` in charts.py lines 200-201). -/
def strLe : Val → Val → Bool
  | [], _ => true
  | _ :: _, [] => false
  | a :: as, b :: bs =>
    if a < b then true
    else if b < a then false
    else strLe as bs

/-- Python's `sorted(...)`: insertion of one element into a sorted list. -/
def insertSorted (v : Val) : List Val → List Val
  | [] => [v]
  | x :: xs => if strLe v x then v :: x :: xs else x :: insertSorted v xs

/-- Python's `sorted(...)` (charts.py lines 200-201): ascending
lexicographic insertion sort. -/
def sortVals : List Val → List Val
  | [] => []
  | x :: xs => insertSorted x (sortVals xs)

/-- One step of the group-collection loop of charts.py lines 196-199:
append `v` to the list if it is not already present. -/
def addDistinct (xs : List Val) (v : Val) : List Val :=
  if v ∈ xs then xs else xs ++ [v]

/-- The group-collection loop of charts.py lines 194-199: walk the present
composite keys (already decoded into pairs) and collect the distinct first
and second components in first-occurrence order. -/
def collectGroups (ps : List (Val × Val)) : List Val × List Val :=
  ps.foldl (fun acc p => (addDistinct acc.1 p.1, addDistinct acc.2 p.2))
    ([], [])

/-- Decoding of every present key, charts.py lines 194-195; the loop raises
(`none`) as soon as one key fails the two-way unpack. -/
def decodeAll : List Key → Option (List (Val × Val))
  | [] => some []
  | k :: ks =>
    match decodeKey k, decodeAll ks with
    | some p, some ps => some (p :: ps)
    | _, _ => none

/-- The output of the grid-building part of `plot_grouped_heatmap`
(charts.py lines 190-210): the two sorted axis label lists and the dense
grid, rows indexed by `group_2` values and columns by `group_1` values.
A missing combination's cell is `none` (the code stores `np.nan`). -/
structure HeatmapData where
  axis1 : List Val
  axis2 : List Val
  grid : List (List (Option ℚ))

/-- Embedding of charts.py lines 190-210: decode every present key, collect
and sort the distinct component values, then fill the
`(len(groups[group_2]), len(groups[group_1]))` grid with the score of
`item_group_1 + '-' + item_group_2` where present and the missing sentinel
(`np.nan`, here `none`) where absent.  `none` is returned when some key
fails to decode (the unpack on line 195 raises). -/
def buildGrid (aggs : List (Key × AggCell)) : Option HeatmapData :=
  match decodeAll (aggs.map Prod.fst) with
  | none => none
  | some pairs =>
    let g := collectGroups pairs
    let axis1 := sortVals g.1
    let axis2 := sortVals g.2
    some ⟨axis1, axis2,
      axis2.map (fun v2 => axis1.map (fun v1 =>
        (lookupKey aggs (encodeKey v1 v2)).map AggCell.score))⟩

/-- The decoded (group_1 value, group_2 value) pairs of the present keys,
in key order (total function; used to name `buildGrid`'s intermediate
result when every key decodes). -/
def gridPairs (aggs : List (Key × AggCell)) : List (Val × Val) :=
  (aggs.map Prod.fst).map (fun k => (decodeKey k).getD ([], []))

/-- The sorted distinct group_1 values (`groups[group_1]` after
charts.py line 200). -/
def gridAxis1 (aggs : List (Key × AggCell)) : List Val :=
  sortVals (collectGroups (gridPairs aggs)).1

/-- The sorted distinct group_2 values (`groups[group_2]` after
charts.py line 201). -/
def gridAxis2 (aggs : List (Key × AggCell)) : List Val :=
  sortVals (collectGroups (gridPairs aggs)).2

/-- The dense grid of charts.py lines 203-210. -/
def gridCells (aggs : List (Key × AggCell)) : List (List (Option ℚ)) :=
  (gridAxis2 aggs).map (fun v2 => (gridAxis1 aggs).map (fun v1 =>
    (lookupKey aggs (encodeKey v1 v2)).map AggCell.score))

/-- The spec's worked example: present keys
`{"Energy-APAC": 1.9, "Energy-EMEA": 2.3, "Tech-APAC": 1.2}`. -/
def aggsEx : List (Key × AggCell) :=
  [(['E', 'n', 'e', 'r', 'g', 'y', '-', 'A', 'P', 'A', 'C'], ⟨19 / 10⟩),
   (['E', 'n', 'e', 'r', 'g', 'y', '-', 'E', 'M', 'E', 'A'], ⟨23 / 10⟩),
   (['T', 'e', 'c', 'h', '-', 'A', 'P', 'A', 'C'], ⟨12 / 10⟩)]

/-- The `ETimeFrames` enum of the external engine interface. -/
inductive TimeFrame
  | short
  | mid
  | long
  deriving DecidableEq

/-- The `EScope` enum of the external engine interface. -/
inductive Scope
  | S1
  | S2
  | S1S2
  | S3
  | S1S2S3
  deriving DecidableEq

/-- One row of `company_scores_df`
(columns selected in actions.py line 52). -/
structure CompanyRow where
  company_name : String
  time_frame : String
  scope : String
  temperature_score : ℚ
  deriving DecidableEq

/-- A spreadsheet cell datum: a string, a number, a null, or a pandas
row-index value (what `to_excel` would prepend without `index=False`). -/
inductive Datum
  | str (s : String)
  | num (q : ℚ)
  | null
  | rowIndex (n : ℕ)
  deriving DecidableEq

/-- A displayed/exported table: a header row of column names plus data
rows (a pandas DataFrame at the granularity this spec needs). -/
structure Table where
  header : List String
  rows : List (List Datum)
  deriving DecidableEq

/-- One sheet of the exported workbook. -/
structure Sheet where
  sheetName : String
  sheetRows : List (List Datum)
  deriving DecidableEq

/-- The cell rows `DataFrame.to_excel` writes: with `index = true` a blank
header cell and a row-index column are prepended; with `index = false`
(as in actions.py lines 72-73) the sheet is exactly the header row followed
by the data rows. -/
def excelRows (index : Bool) (t : Table) : List (List Datum) :=
  if index then
    (Datum.str "" :: t.header.map Datum.str) ::
      t.rows.enum.map (fun p => Datum.rowIndex p.1 :: p.2)
  else
    t.header.map Datum.str :: t.rows

/-- Embedding of the export serialization of actions.py lines 69-74: an
in-memory workbook with the two named sheets, both written with
`index=False`. -/
def serializeExport (companyScoresDf aggregatedDf : Table) : List Sheet :=
  [⟨"Company Scores", excelRows false companyScoresDf⟩,
   ⟨"Aggregated Scores", excelRows false aggregatedDf⟩]

/-- An engine exception message (surfaced as a calculation error). -/
abbrev CalcError := String

/-- The grouped-aggregation result of `run_grouped_calculation`, consumed
as `grouped_aggregations[timeframe][scope].grouped` in charts.py line 190. -/
abbrev GroupedAggs := String → String → List (Key × AggCell)

/-- The `analysis_parameters` tuple built in ui.py line 228:
`([heatmap_timeframe], [heatmap_scope], [group_1, group_2])`. -/
abbrev HeatmapParams := List TimeFrame × List Scope × List String

/-- The chart-type selector value; `other` covers the final
`else: st.warning(...)` branch of charts.py lines 55-56. -/
inductive ChartType
  | bar
  | scatter
  | heatmap
  | line
  | other (name : String)
  deriving DecidableEq

/-- What `render_charts` draws: the filtered company rows for the three
row-level charts, the delegated `plot_grouped_heatmap(grouped, params)`
call for the heatmap, the missing-grouping error, or the
not-implemented warning. -/
inductive Rendered
  | barChart (rows : List CompanyRow) (colorScheme : String)
      (showLabels : Bool)
  | scatterPlot (rows : List CompanyRow) (colorScheme : String)
      (showLabels : Bool)
  | lineChart (rows : List CompanyRow) (colorScheme : String)
      (showLabels : Bool)
  | heatmapCall (g : GroupedAggs) (p : HeatmapParams)
  | heatmapMissingError
  | unknownChart (name : String)

/-- Embedding of `render_charts` (charts.py lines 16-56): filter the
company rows by `temperature_score <= threshold` (line 42), then dispatch
on the chart type; the heatmap branch ignores the filtered rows and the
threshold, delegating the raw grouped aggregations to
`plot_grouped_heatmap`, or showing an error when grouping data is
missing. -/
def renderCharts (companyScoresDf : List CompanyRow) (aggregatedDf : Table)
    (coverage : ℚ) (chartType : ChartType) (colorScheme : String)
    (showLabels : Bool) (threshold : ℚ)
    (groupedAggregations : Option GroupedAggs)
    (analysisParameters : Option HeatmapParams) : Rendered :=
  let filtered :=
    companyScoresDf.filter (fun r => decide (r.temperature_score ≤ threshold))
  match chartType with
  | .bar => .barChart filtered colorScheme showLabels
  | .scatter => .scatterPlot filtered colorScheme showLabels
  | .heatmap =>
    match groupedAggregations, analysisParameters with
    | some g, some p => .heatmapCall g p
    | _, _ => .heatmapMissingError
  | .line => .lineChart filtered colorScheme showLabels
  | .other name => .unknownChart name

/-- The interactive session's stored result bundle (`st.session_state` in
ui.py lines 107-118 plus the `run_now` trigger flag of lines 84-88).
Handles (`provider`, `companies`, `agg_method`) are opaque; they are
modelled by natural numbers. -/
structure Session where
  provider : ℕ
  companies : ℕ
  amendedPortfolio : List ℚ
  selectedTimeframes : List TimeFrame
  selectedScopes : List Scope
  aggMethod : ℕ
  companyScoresDf : List CompanyRow
  aggregatedDf : Table
  coverage : ℚ
  excelBytes : List Sheet
  calculationComplete : Bool
  runNow : Bool

/-- The 7-tuple returned by `run_calculation(..., return_intermediates=True)`
as unpacked in ui.py line 105. -/
structure RunResults where
  companyScoresDf : List CompanyRow
  aggregatedDf : Table
  coverage : ℚ
  excelBytes : List Sheet
  provider : ℕ
  companies : ℕ
  amendedPortfolio : List ℚ

/-- Embedding of the run-calculation handler of ui.py lines 91-123: the
engine call either raises (`error e`, caught by the `except` block and
shown via `st.error`, returned here as the second component) or returns
results, in which case every session field is stored (lines 107-118);
the `finally` block always resets the `run_now` trigger flag. -/
def runCalcHandler (result : Except CalcError RunResults)
    (tfs : List TimeFrame) (scs : List Scope) (am : ℕ) (s : Session) :
    Session × Option CalcError :=
  match result with
  | .error e => ({ s with runNow := false }, some e)
  | .ok r =>
    ({ provider := r.provider, companies := r.companies,
       amendedPortfolio := r.amendedPortfolio, selectedTimeframes := tfs,
       selectedScopes := scs, aggMethod := am,
       companyScoresDf := r.companyScoresDf, aggregatedDf := r.aggregatedDf,
       coverage := r.coverage, excelBytes := r.excelBytes,
       calculationComplete := true, runNow := false }, none)

/-- Modelled from the spec: `run_grouped_calculation` is imported by ui.py
line 20 from `app.actions` but is absent from src/app/actions.py; §4.4
describes it as a second, independent external-engine invocation returning
`(company_table_unused, grouped_tree)`, and actions.py's own header says
these functions are Streamlit-free (no session access).  It is therefore
modelled as an opaque function of the arguments passed at ui.py
lines 209-216, which may also raise an engine exception. -/
abbrev GroupedEngine :=
  ℕ → ℕ → List TimeFrame → List Scope → ℕ → List String →
    Except CalcError (List CompanyRow × GroupedAggs)

/-- The observable outcome of one press of the Generate Charts button:
whether the `g1 == g2` validation error was shown, whether
`run_grouped_calculation` was invoked, a propagated engine exception if
any, what was rendered, and the session state after the handler. -/
structure ChartsOutcome where
  validationError : Bool
  engineInvoked : Bool
  calcError : Option CalcError
  rendered : Option Rendered
  sessionAfter : Session

/-- Embedding of the Generate Charts button handler of ui.py lines 200-229:
for a heatmap with equal groupings, `st.error` is shown and the engine is
not called (grouped aggregations stay `None`, and `render_charts` is still
reached); with distinct groupings the grouped engine runs — an exception
aborts the handler (nothing rendered) — and on success the grouped tree is
handed to `render_charts`; non-heatmap chart types never invoke the
grouped engine.  No branch writes any session field. -/
def generateCharts (runGrouped : GroupedEngine) (s : Session)
    (chartType : ChartType) (colorScheme : String) (showLabels : Bool)
    (threshold : ℚ) (g1 g2 : String) (hTf : TimeFrame) (hSc : Scope) :
    ChartsOutcome :=
  if chartType = ChartType.heatmap then
    if g1 = g2 then
      { validationError := true, engineInvoked := false, calcError := none,
        rendered := some (renderCharts s.companyScoresDf s.aggregatedDf
          s.coverage chartType colorScheme showLabels threshold none
          (some ([hTf], [hSc], [g1, g2]))),
        sessionAfter := s }
    else
      match runGrouped s.provider s.companies [hTf] [hSc] s.aggMethod
        [g1, g2] with
      | .error e =>
        { validationError := false, engineInvoked := true,
          calcError := some e, rendered := none, sessionAfter := s }
      | .ok res =>
        { validationError := false, engineInvoked := true, calcError := none,
          rendered := some (renderCharts s.companyScoresDf s.aggregatedDf
            s.coverage chartType colorScheme showLabels threshold
            (some res.2) (some ([hTf], [hSc], [g1, g2]))),
          sessionAfter := s }
  else
    { validationError := false, engineInvoked := false, calcError := none,
      rendered := some (renderCharts s.companyScoresDf s.aggregatedDf
        s.coverage chartType colorScheme showLabels threshold none none),
      sessionAfter := s }

/-- The amended-portfolio table (row contents abstracted to one rational
per row). -/
abbrev Portfolio := List ℚ

/-- Embedding of the coverage call of actions.py lines 62-67 under explicit
reference semantics: the heap is a list of portfolio buffers, the caller's
`amended_portfolio` lives at index `r`; `amended_portfolio.copy()`
allocates a fresh buffer with the same contents, and the external
`get_portfolio_coverage` (a parameter, which may mutate the buffer it is
handed and returns the coverage value) is applied to the copy, whose
final contents are written back to the copy's heap cell. -/
def coverageCall (getPortfolioCoverage : Portfolio → Portfolio × ℚ)
    (store : List Portfolio) (r : ℕ) : List Portfolio × ℚ :=
  let cIdx := store.length
  let store1 := store ++ [store.getD r []]
  let res := getPortfolioCoverage (store1.getD cIdx [])
  (store1.set cIdx res.1, res.2)

/-- A concrete previously-populated session, used by witnesses. -/
def sessionEx : Session :=
  { provider := 7, companies := 3, amendedPortfolio := [5],
    selectedTimeframes := [TimeFrame.mid], selectedScopes := [Scope.S3],
    aggMethod := 1,
    companyScoresDf := [⟨"AcmeCo", "mid", "S3", 3⟩],
    aggregatedDf := ⟨["mid"], [[Datum.num 2]]⟩, coverage := 50,
    excelBytes := [], calculationComplete := true, runNow := false }

/-- A grouped engine stub that always succeeds with an empty tree. -/
def groupedEngineOk : GroupedEngine :=
  fun _ _ _ _ _ _ => Except.ok ([], fun _ _ => [])

/-- A grouped engine stub that always raises. -/
def groupedEngineFail : GroupedEngine :=
  fun _ _ _ _ _ _ => Except.error "engine exception"

theorem splitOnDelim_ne_nil (s : List Char) : splitOnDelim s ≠ [] := by
  cases s with
  | nil => simp [splitOnDelim]
  | cons c rest =>
    simp only [splitOnDelim]
    by_cases hc : c = delim
    · simp [hc]
    · simp only [hc, if_false]
      cases splitOnDelim rest with
      | nil => simp
      | cons h t => simp

theorem splitOnDelim_free (s : List Char) (hs : delim ∉ s) :
    splitOnDelim s = [s] := by
  induction s with
  | nil => rfl
  | cons c rest ih =>
    have hc : c ≠ delim := fun h => hs (h ▸ List.mem_cons_self c rest)
    have hrest : delim ∉ rest := fun h => hs (List.mem_cons_of_mem c h)
    simp only [splitOnDelim, hc, if_false, ih hrest]

theorem splitOnDelim_append (a s : List Char) (ha : delim ∉ a) :
    splitOnDelim (a ++ delim :: s) = a :: splitOnDelim s := by
  induction a with
  | nil => simp [splitOnDelim]
  | cons c rest ih =>
    have hc : c ≠ delim := fun h => ha (h ▸ List.mem_cons_self c rest)
    have hrest : delim ∉ rest := fun h => ha (List.mem_cons_of_mem c h)
    rw [List.cons_append]
    show (if c = delim then [] :: splitOnDelim (rest ++ delim :: s)
      else
        match splitOnDelim (rest ++ delim :: s) with
        | [] => [[c]]
        | h :: t => (c :: h) :: t) = (c :: rest) :: splitOnDelim s
    rw [if_neg hc, ih hrest]

theorem splitOnDelim_eq_singleton {s x : List Char}
    (h : splitOnDelim s = [x]) : s = x ∧ delim ∉ x := by
  induction s generalizing x with
  | nil =>
    have hx : ([] : List Char) = x := by
      simpa [splitOnDelim] using h
    subst hx
    exact ⟨rfl, by simp⟩
  | cons c rest ih =>
    by_cases hc : c = delim
    · exfalso
      rw [show splitOnDelim (c :: rest) = [] :: splitOnDelim rest by
        simp [splitOnDelim, hc]] at h
      have h1 := (List.cons.inj h).2
      exact splitOnDelim_ne_nil rest h1
    · rw [show splitOnDelim (c :: rest) =
        (match splitOnDelim rest with
          | [] => [[c]]
          | h :: t => (c :: h) :: t) by simp [splitOnDelim, hc]] at h
      cases hr : splitOnDelim rest with
      | nil => exact absurd hr (splitOnDelim_ne_nil rest)
      | cons hh tt =>
        rw [hr] at h
        obtain ⟨hx, htt⟩ := List.cons.inj h
        rw [htt] at hr
        obtain ⟨hrest, hfree⟩ := ih hr
        subst hrest
        refine ⟨hx, ?_⟩
        rw [← hx]
        intro hmem
        rcases List.mem_cons.mp hmem with h' | h'
        · exact hc h'.symm
        · exact hfree h'

theorem splitOnDelim_eq_pair {s a b : List Char}
    (h : splitOnDelim s = [a, b]) :
    s = a ++ delim :: b ∧ delim ∉ a ∧ delim ∉ b := by
  induction s generalizing a b with
  | nil => simp [splitOnDelim] at h
  | cons c rest ih =>
    by_cases hc : c = delim
    · rw [show splitOnDelim (c :: rest) = [] :: splitOnDelim rest by
        simp [splitOnDelim, hc]] at h
      obtain ⟨ha, hrest⟩ := List.cons.inj h
      obtain ⟨hr, hfree⟩ := splitOnDelim_eq_singleton hrest
      subst hr
      refine ⟨?_, ?_, hfree⟩
      · rw [← ha, hc]
        rfl
      · rw [← ha]
        simp
    · rw [show splitOnDelim (c :: rest) =
        (match splitOnDelim rest with
          | [] => [[c]]
          | h :: t => (c :: h) :: t) by simp [splitOnDelim, hc]] at h
      cases hr : splitOnDelim rest with
      | nil => exact absurd hr (splitOnDelim_ne_nil rest)
      | cons hh tt =>
        rw [hr] at h
        obtain ⟨hx, htt⟩ := List.cons.inj h
        rw [htt] at hr
        obtain ⟨hs, hfa, hfb⟩ := ih hr
        subst hs
        refine ⟨?_, ?_, hfb⟩
        · rw [← hx]
          rfl
        · rw [← hx]
          intro hmem
          rcases List.mem_cons.mp hmem with h' | h'
          · exact hc h'.symm
          · exact hfa h'

/-- Characterisation of the composite-key decoder: it succeeds exactly on
keys containing exactly one delimiter, returning the (delimiter-free)
pieces on either side. -/
theorem decodeKey_eq_some_iff {k : Key} {a b : Val} :
    decodeKey k = some (a, b) ↔ delim ∉ a ∧ delim ∉ b ∧ k = encodeKey a b := by
  constructor
  · intro h
    simp only [decodeKey] at h
    cases hs : splitOnDelim k with
    | nil => exact absurd hs (splitOnDelim_ne_nil k)
    | cons x t =>
      rw [hs] at h
      match t, h with
      | [y], h =>
        have hxy : x = a ∧ y = b := by
          have := Option.some.inj h
          exact ⟨congrArg Prod.fst this, congrArg Prod.snd this⟩
        obtain ⟨hx, hy⟩ := hxy
        subst hx; subst hy
        obtain ⟨hk, hfa, hfb⟩ := splitOnDelim_eq_pair hs
        exact ⟨hfa, hfb, hk⟩
  · rintro ⟨ha, hb, hk⟩
    subst hk
    simp only [decodeKey, encodeKey, splitOnDelim_append a b ha,
      splitOnDelim_free b hb]

/-- C2: for every pair of delimiter-free strings `(a, b)`, decoding the
encoded composite key `a ++ "-" ++ b` returns the original pair:
`decode(encode(a, b)) = (a, b)`. -/
theorem claim_c2_decode_encode (a b : Val) (ha : delim ∉ a) (hb : delim ∉ b) :
    decodeKey (encodeKey a b) = some (a, b) :=
  decodeKey_eq_some_iff.mpr ⟨ha, hb, rfl⟩

/-- Witness for C2 at the concrete delimiter-free pair `("Energy", "APAC")`. -/
theorem claim_c2_witness :
    delim ∉ ['E', 'n', 'e', 'r', 'g', 'y'] ∧ delim ∉ ['A', 'P', 'A', 'C'] ∧
      decodeKey (encodeKey ['E', 'n', 'e', 'r', 'g', 'y'] ['A', 'P', 'A', 'C'])
        = some (['E', 'n', 'e', 'r', 'g', 'y'], ['A', 'P', 'A', 'C']) :=
  ⟨by decide, by decide,
    claim_c2_decode_encode ['E', 'n', 'e', 'r', 'g', 'y'] ['A', 'P', 'A', 'C']
      (by decide) (by decide)⟩

/-- C3 counterexample: on the key `"a-b-c"` (two delimiters), the decoder of
charts.py line 195 (`item_group_1, item_group_2 = combination.split('-')`)
fails — the two-way unpack of a three-element split raises, modelled as
`none` — instead of returning the first-occurrence split `("a", "b-c")` that
the claim asserts. -/
theorem claim_c3_counterexample :
    decodeKey ['a', '-', 'b', '-', 'c'] = none ∧
      decodeKey ['a', '-', 'b', '-', 'c'] ≠ some (['a'], ['b', '-', 'c']) := by
  constructor
  · rfl
  · intro h
    simp [decodeKey, splitOnDelim, delim] at h

/-- C4: for every aggregation tree and requested (time frame, scope) pair,
the reshaped table's cell equals the tree's `"all"` cell's score rounded to
2 decimal places when that cell is present, and null (`none`) when it is
absent. -/
theorem claim_c4_reshape {TimeFrame Scope : Type}
    (t : AggTree TimeFrame Scope) (tf : TimeFrame) (sc : Scope) :
    reshapedCellOf t tf sc =
      ((t tf sc).bind (fun m => lookupKey m allKey)).map
        (fun c => round2 c.score) := by
  unfold reshapedCellOf reshapeCell
  cases h : t tf sc with
  | none => rfl
  | some m =>
    by_cases hm : m = []
    · subst hm
      simp [lookupKey]
    · simp only [hm, if_false, Option.bind_some]
      cases hl : lookupKey m allKey with
      | none => simp [hl]
      | some c => simp [hl]

theorem strLe_cons (a b : Char) (as bs : List Char) :
    strLe (a :: as) (b :: bs) =
      if a < b then true else if b < a then false else strLe as bs := rfl

theorem strLe_cons_lt {a b : Char} (as bs : List Char) (h : a < b) :
    strLe (a :: as) (b :: bs) = true := by
  simp [strLe_cons, h]

theorem strLe_cons_gt {a b : Char} (as bs : List Char) (h : b < a) :
    strLe (a :: as) (b :: bs) = false := by
  simp [strLe_cons, h, asymm h]

theorem strLe_cons_eq (a : Char) (as bs : List Char) :
    strLe (a :: as) (a :: bs) = strLe as bs := by
  simp [strLe_cons]

theorem strLe_total : ∀ a b : Val, strLe a b = true ∨ strLe b a = true
  | [], _ => Or.inl rfl
  | _ :: _, [] => Or.inr rfl
  | a :: as, b :: bs => by
    rcases lt_trichotomy a b with h | h | h
    · exact Or.inl (strLe_cons_lt as bs h)
    · subst h
      rw [strLe_cons_eq, strLe_cons_eq]
      exact strLe_total as bs
    · exact Or.inr (strLe_cons_lt bs as h)

theorem strLe_trans :
    ∀ a b c : Val, strLe a b = true → strLe b c = true → strLe a c = true
  | [], _, _, _, _ => rfl
  | _ :: _, [], _, hab, _ => by simp [strLe] at hab
  | _ :: _, _ :: _, [], _, hbc => by simp [strLe] at hbc
  | a :: as, b :: bs, c :: cs, hab, hbc => by
    rcases lt_trichotomy a b with h1 | h1 | h1
    · rcases lt_trichotomy b c with h2 | h2 | h2
      · exact strLe_cons_lt as cs (lt_trans h1 h2)
      · subst h2
        exact strLe_cons_lt as cs h1
      · rw [strLe_cons_gt bs cs h2] at hbc
        exact absurd hbc (by simp)
    · subst h1
      rcases lt_trichotomy a c with h2 | h2 | h2
      · exact strLe_cons_lt as cs h2
      · subst h2
        rw [strLe_cons_eq] at hab hbc ⊢
        exact strLe_trans as bs cs hab hbc
      · rw [strLe_cons_gt bs cs h2] at hbc
        exact absurd hbc (by simp)
    · rw [strLe_cons_gt as bs h1] at hab
      exact absurd hab (by simp)

theorem insertSorted_perm (v : Val) (l : List Val) :
    List.Perm (insertSorted v l) (v :: l) := by
  induction l with
  | nil => exact List.Perm.refl _
  | cons x xs ih =>
    by_cases h : strLe v x = true
    · simp only [insertSorted, h, if_true]
      exact List.Perm.refl _
    · simp only [insertSorted, h, if_false]
      exact (ih.cons x).trans (List.Perm.swap v x xs)

theorem sortVals_perm (l : List Val) : List.Perm (sortVals l) l := by
  induction l with
  | nil => exact List.Perm.refl _
  | cons x xs ih =>
    exact (insertSorted_perm x (sortVals xs)).trans (ih.cons x)

theorem mem_sortVals {l : List Val} {v : Val} : v ∈ sortVals l ↔ v ∈ l :=
  (sortVals_perm l).mem_iff

theorem nodup_sortVals {l : List Val} (h : l.Nodup) : (sortVals l).Nodup :=
  (sortVals_perm l).nodup_iff.mpr h

theorem length_sortVals (l : List Val) : (sortVals l).length = l.length :=
  (sortVals_perm l).length_eq

theorem pairwise_insertSorted (v : Val) (l : List Val)
    (hl : l.Pairwise (fun a b => strLe a b = true)) :
    (insertSorted v l).Pairwise (fun a b => strLe a b = true) := by
  induction l with
  | nil => simp [insertSorted]
  | cons x xs ih =>
    obtain ⟨hx, hxs⟩ := List.pairwise_cons.mp hl
    by_cases h : strLe v x = true
    · simp only [insertSorted, h, if_true]
      refine List.pairwise_cons.mpr ⟨?_, hl⟩
      intro y hy
      rcases List.mem_cons.mp hy with h' | h'
      · subst h'
        exact h
      · exact strLe_trans v x y h (hx y h')
    · simp only [insertSorted, h, if_false]
      refine List.pairwise_cons.mpr ⟨?_, ih hxs⟩
      intro y hy
      have hy' := (insertSorted_perm v xs).mem_iff.mp hy
      rcases List.mem_cons.mp hy' with h' | h'
      · rw [h']
        rcases strLe_total v x with h'' | h''
        · exact absurd h'' h
        · exact h''
      · exact hx y h'

theorem pairwise_sortVals (l : List Val) :
    (sortVals l).Pairwise (fun a b => strLe a b = true) := by
  induction l with
  | nil => exact List.Pairwise.nil
  | cons x xs ih => exact pairwise_insertSorted x (sortVals xs) ih

theorem mem_addDistinct {xs : List Val} {v x : Val} :
    x ∈ addDistinct xs v ↔ x ∈ xs ∨ x = v := by
  unfold addDistinct
  by_cases h : v ∈ xs
  · simp only [h, if_true]
    constructor
    · exact Or.inl
    · rintro (h' | h')
      · exact h'
      · exact h' ▸ h
  · simp [h]

theorem nodup_addDistinct {xs : List Val} (v : Val) (h : xs.Nodup) :
    (addDistinct xs v).Nodup := by
  unfold addDistinct
  by_cases hv : v ∈ xs
  · simp only [hv, if_true]
    exact h
  · simp only [hv, if_false]
    simp [List.nodup_append, h, hv]

theorem foldl_addDistinct_mem (f : (Val × Val) → Val) :
    ∀ (ps : List (Val × Val)) (acc : List Val) (x : Val),
      x ∈ ps.foldl (fun a p => addDistinct a (f p)) acc ↔
        x ∈ acc ∨ x ∈ ps.map f := by
  intro ps
  induction ps with
  | nil => simp
  | cons p ps ih =>
    intro acc x
    rw [List.foldl_cons, ih (addDistinct acc (f p)) x]
    rw [mem_addDistinct]
    simp only [List.map_cons, List.mem_cons]
    tauto

theorem foldl_addDistinct_nodup (f : (Val × Val) → Val) :
    ∀ (ps : List (Val × Val)) (acc : List Val), acc.Nodup →
      (ps.foldl (fun a p => addDistinct a (f p)) acc).Nodup := by
  intro ps
  induction ps with
  | nil => exact fun acc h => h
  | cons p ps ih =>
    intro acc h
    exact ih (addDistinct acc (f p)) (nodup_addDistinct (f p) h)

theorem collectGroups_aux :
    ∀ (ps : List (Val × Val)) (acc : List Val × List Val),
      (ps.foldl (fun a p => (addDistinct a.1 p.1, addDistinct a.2 p.2)) acc) =
        (ps.foldl (fun a p => addDistinct a p.1) acc.1,
          ps.foldl (fun a p => addDistinct a p.2) acc.2) := by
  intro ps
  induction ps with
  | nil => intro acc; rfl
  | cons p ps ih =>
    intro acc
    exact ih (addDistinct acc.1 p.1, addDistinct acc.2 p.2)

theorem collectGroups_fst (ps : List (Val × Val)) :
    (collectGroups ps).1 =
      ps.foldl (fun a p => addDistinct a p.1) [] := by
  unfold collectGroups
  rw [collectGroups_aux ps ([], [])]

theorem collectGroups_snd (ps : List (Val × Val)) :
    (collectGroups ps).2 =
      ps.foldl (fun a p => addDistinct a p.2) [] := by
  unfold collectGroups
  rw [collectGroups_aux ps ([], [])]

theorem mem_collectGroups_fst {ps : List (Val × Val)} {x : Val} :
    x ∈ (collectGroups ps).1 ↔ x ∈ ps.map Prod.fst := by
  rw [collectGroups_fst, foldl_addDistinct_mem Prod.fst ps [] x]
  simp

theorem mem_collectGroups_snd {ps : List (Val × Val)} {x : Val} :
    x ∈ (collectGroups ps).2 ↔ x ∈ ps.map Prod.snd := by
  rw [collectGroups_snd, foldl_addDistinct_mem Prod.snd ps [] x]
  simp

theorem nodup_collectGroups_fst (ps : List (Val × Val)) :
    (collectGroups ps).1.Nodup := by
  rw [collectGroups_fst]
  exact foldl_addDistinct_nodup Prod.fst ps [] List.nodup_nil

theorem nodup_collectGroups_snd (ps : List (Val × Val)) :
    (collectGroups ps).2.Nodup := by
  rw [collectGroups_snd]
  exact foldl_addDistinct_nodup Prod.snd ps [] List.nodup_nil

theorem decodeAll_eq_some {ks : List Key}
    (h : ∀ k ∈ ks, (decodeKey k).isSome = true) :
    decodeAll ks =
      some (ks.map (fun k => (decodeKey k).getD ([], []))) := by
  induction ks with
  | nil => rfl
  | cons k ks ih =>
    obtain ⟨p, hp⟩ :=
      Option.isSome_iff_exists.mp (h k (List.mem_cons_self k ks))
    have hks := ih (fun k' hk' => h k' (List.mem_cons_of_mem k hk'))
    simp [decodeAll, hp, hks]

theorem lookupKey_eq_none_iff {aggs : List (Key × AggCell)} {k : Key} :
    lookupKey aggs k = none ↔ k ∉ aggs.map Prod.fst := by
  induction aggs with
  | nil => simp [lookupKey]
  | cons p rest ih =>
    obtain ⟨k', c⟩ := p
    by_cases h : k' = k
    · subst h
      have hl : lookupKey ((k', c) :: rest) k' = some c := by
        unfold lookupKey
        exact if_pos rfl
      rw [hl]
      exact iff_of_false (fun h' => Option.noConfusion h')
        (fun h' =>
          h' (List.mem_map.mpr ⟨(k', c), List.mem_cons_self _ _, rfl⟩))
    · simp only [lookupKey, h, if_false, List.map_cons, List.mem_cons, ih]
      constructor
      · intro h' h''
        rcases h'' with h'' | h''
        · exact h (h''.symm)
        · exact h' h''
      · intro h' h''
        exact h' (Or.inr h'')

theorem lookupKey_eq_some_of_mem {aggs : List (Key × AggCell)}
    (hnd : (aggs.map Prod.fst).Nodup) {k : Key} {c : AggCell}
    (h : (k, c) ∈ aggs) : lookupKey aggs k = some c := by
  induction aggs with
  | nil => cases h
  | cons p rest ih =>
    obtain ⟨k', c'⟩ := p
    rw [List.map_cons, List.nodup_cons] at hnd
    rcases List.mem_cons.mp h with h' | h'
    · have hk : k = k' := congrArg Prod.fst h'
      have hc : c = c' := congrArg Prod.snd h'
      subst hk
      subst hc
      simp [lookupKey]
    · have hne : k' ≠ k :=
        fun he => hnd.1 (List.mem_map.mpr ⟨(k, c), h', he.symm⟩)
      simp [lookupKey, hne, ih hnd.2 h']

theorem getD_map {α β : Type _} (f : α → β) :
    ∀ (l : List α) (i : ℕ) (d : β) (d' : α), i < l.length →
      (l.map f).getD i d = f (l.getD i d')
  | [], i, d, d', h => absurd h (by simp)
  | x :: xs, 0, d, d', _ => rfl
  | x :: xs, i + 1, d, d', h => by
    have : i < xs.length := by simpa using h
    simpa using getD_map f xs i d d' this

theorem getD_mem {α : Type _} (d : α) :
    ∀ (l : List α) (i : ℕ), i < l.length → l.getD i d ∈ l
  | [], i, h => absurd h (by simp)
  | x :: xs, 0, _ => List.mem_cons_self x xs
  | x :: xs, i + 1, h =>
    List.mem_cons_of_mem x (getD_mem d xs i (by simpa using h))

theorem mem_iff_getD {α : Type _} (d : α) {l : List α} {x : α} :
    x ∈ l ↔ ∃ i, i < l.length ∧ l.getD i d = x := by
  constructor
  · intro h
    induction l with
    | nil => cases h
    | cons y ys ih =>
      rcases List.mem_cons.mp h with h' | h'
      · exact ⟨0, by simp, h'.symm⟩
      · obtain ⟨i, hi, hx⟩ := ih h'
        exact ⟨i + 1, by simpa using hi, hx⟩
  · rintro ⟨i, hi, hx⟩
    exact hx ▸ getD_mem d l i hi

theorem nodup_getD_inj {α : Type _} (d : α) {l : List α} (h : l.Nodup) :
    ∀ i j, i < l.length → j < l.length → l.getD i d = l.getD j d →
      i = j := by
  induction l with
  | nil =>
    intro i j hi
    simp at hi
  | cons x xs ih =>
    intro i j hi hj he
    obtain ⟨hx, hxs⟩ := List.nodup_cons.mp h
    match i, j with
    | 0, 0 => rfl
    | 0, j + 1 =>
      exfalso
      have hj' : j < xs.length := by simpa using hj
      have he' : x = xs.getD j d := he
      exact hx (he'.symm ▸ getD_mem d xs j hj')
    | i + 1, 0 =>
      exfalso
      have hi' : i < xs.length := by simpa using hi
      have he' : xs.getD i d = x := he
      exact hx (he' ▸ getD_mem d xs i hi')
    | i + 1, j + 1 =>
      have hi' : i < xs.length := by simpa using hi
      have hj' : j < xs.length := by simpa using hj
      have he' : xs.getD i d = xs.getD j d := he
      have := ih hxs i j hi' hj' he'
      simp [this]

theorem buildGrid_eq {aggs : List (Key × AggCell)}
    (hk : ∀ p ∈ aggs, (decodeKey p.1).isSome = true) :
    buildGrid aggs = some ⟨gridAxis1 aggs, gridAxis2 aggs, gridCells aggs⟩ := by
  unfold buildGrid
  have h : ∀ k ∈ aggs.map Prod.fst, (decodeKey k).isSome = true := by
    intro k hkm
    obtain ⟨p, hp, hpk⟩ := List.mem_map.mp hkm
    exact hpk ▸ hk p hp
  rw [decodeAll_eq_some h]
  rfl

theorem nodup_gridAxis1 (aggs : List (Key × AggCell)) :
    (gridAxis1 aggs).Nodup :=
  nodup_sortVals (nodup_collectGroups_fst _)

theorem nodup_gridAxis2 (aggs : List (Key × AggCell)) :
    (gridAxis2 aggs).Nodup :=
  nodup_sortVals (nodup_collectGroups_snd _)

theorem sorted_gridAxis1 (aggs : List (Key × AggCell)) :
    (gridAxis1 aggs).Pairwise (fun a b => strLe a b = true) :=
  pairwise_sortVals _

theorem sorted_gridAxis2 (aggs : List (Key × AggCell)) :
    (gridAxis2 aggs).Pairwise (fun a b => strLe a b = true) :=
  pairwise_sortVals _

theorem mem_gridAxis1_iff {aggs : List (Key × AggCell)}
    (hk : ∀ p ∈ aggs, (decodeKey p.1).isSome = true) {v : Val} :
    v ∈ gridAxis1 aggs ↔ ∃ p ∈ aggs, ∃ b, decodeKey p.1 = some (v, b) := by
  unfold gridAxis1
  rw [mem_sortVals, mem_collectGroups_fst]
  unfold gridPairs
  rw [List.map_map, List.map_map, List.mem_map]
  constructor
  · rintro ⟨p, hp, hv⟩
    obtain ⟨q, hq⟩ := Option.isSome_iff_exists.mp (hk p hp)
    refine ⟨p, hp, q.2, ?_⟩
    rw [hq]
    have : q.1 = v := by
      simpa [Function.comp, hq] using hv
    rw [← this]
  · rintro ⟨p, hp, b, hd⟩
    refine ⟨p, hp, ?_⟩
    simp [Function.comp, hd]

theorem mem_gridAxis2_iff {aggs : List (Key × AggCell)}
    (hk : ∀ p ∈ aggs, (decodeKey p.1).isSome = true) {v : Val} :
    v ∈ gridAxis2 aggs ↔ ∃ p ∈ aggs, ∃ a, decodeKey p.1 = some (a, v) := by
  unfold gridAxis2
  rw [mem_sortVals, mem_collectGroups_snd]
  unfold gridPairs
  rw [List.map_map, List.map_map, List.mem_map]
  constructor
  · rintro ⟨p, hp, hv⟩
    obtain ⟨q, hq⟩ := Option.isSome_iff_exists.mp (hk p hp)
    refine ⟨p, hp, q.1, ?_⟩
    rw [hq]
    have : q.2 = v := by
      simpa [Function.comp, hq] using hv
    rw [← this]
  · rintro ⟨p, hp, a, hd⟩
    refine ⟨p, hp, ?_⟩
    simp [Function.comp, hd]

theorem length_gridAxis1 {aggs : List (Key × AggCell)}
    (hk : ∀ p ∈ aggs, (decodeKey p.1).isSome = true) :
    (gridAxis1 aggs).length =
      (aggs.filterMap (fun p => (decodeKey p.1).map Prod.fst)).dedup.length := by
  have hmem : ∀ v, v ∈ gridAxis1 aggs ↔
      v ∈ aggs.filterMap (fun p => (decodeKey p.1).map Prod.fst) := by
    intro v
    rw [mem_gridAxis1_iff hk, List.mem_filterMap]
    constructor
    · rintro ⟨p, hp, b, hd⟩
      exact ⟨p, hp, by rw [hd]; rfl⟩
    · rintro ⟨p, hp, hf⟩
      obtain ⟨q, hq, hq1⟩ := Option.map_eq_some'.mp hf
      exact ⟨p, hp, q.2, by rw [hq, ← hq1]⟩
  have hfin : (gridAxis1 aggs).toFinset =
      (aggs.filterMap (fun p => (decodeKey p.1).map Prod.fst)).toFinset := by
    ext v
    rw [List.mem_toFinset, List.mem_toFinset, hmem]
  calc (gridAxis1 aggs).length
      = (gridAxis1 aggs).toFinset.card :=
        (List.toFinset_card_of_nodup (nodup_gridAxis1 aggs)).symm
    _ = _ := by rw [hfin, List.card_toFinset]

theorem length_gridAxis2 {aggs : List (Key × AggCell)}
    (hk : ∀ p ∈ aggs, (decodeKey p.1).isSome = true) :
    (gridAxis2 aggs).length =
      (aggs.filterMap (fun p => (decodeKey p.1).map Prod.snd)).dedup.length := by
  have hmem : ∀ v, v ∈ gridAxis2 aggs ↔
      v ∈ aggs.filterMap (fun p => (decodeKey p.1).map Prod.snd) := by
    intro v
    rw [mem_gridAxis2_iff hk, List.mem_filterMap]
    constructor
    · rintro ⟨p, hp, a, hd⟩
      exact ⟨p, hp, by rw [hd]; rfl⟩
    · rintro ⟨p, hp, hf⟩
      obtain ⟨q, hq, hq2⟩ := Option.map_eq_some'.mp hf
      exact ⟨p, hp, q.1, by rw [hq, ← hq2]⟩
  have hfin : (gridAxis2 aggs).toFinset =
      (aggs.filterMap (fun p => (decodeKey p.1).map Prod.snd)).toFinset := by
    ext v
    rw [List.mem_toFinset, List.mem_toFinset, hmem]
  calc (gridAxis2 aggs).length
      = (gridAxis2 aggs).toFinset.card :=
        (List.toFinset_card_of_nodup (nodup_gridAxis2 aggs)).symm
    _ = _ := by rw [hfin, List.card_toFinset]

theorem gridCells_getD {aggs : List (Key × AggCell)} {i j : ℕ}
    (hi : i < (gridAxis2 aggs).length) (hj : j < (gridAxis1 aggs).length) :
    ((gridCells aggs).getD i []).getD j none =
      (lookupKey aggs
        (encodeKey ((gridAxis1 aggs).getD j []) ((gridAxis2 aggs).getD i []))).map
        AggCell.score := by
  unfold gridCells
  rw [getD_map _ (gridAxis2 aggs) i [] [] hi,
    getD_map _ (gridAxis1 aggs) j none [] hj]

/-- C1: for a grouped-aggregation slice whose keys are delimiter-free
composite keys (every key decodes) and distinct (a Python dict), the grid
built by `plot_grouped_heatmap` (charts.py lines 190-210) has shape
(number of distinct group_2 values among present keys, number of distinct
group_1 values among present keys); the two label sequences are the
distinct decoded components, each without duplicates and sorted ascending
lexicographically; every present key `v1-v2` maps to exactly one cell
`grid[index_of(v2)][index_of(v1)]`, which holds that key's score; and every
absent (v1, v2) combination holds the missing sentinel `none`,
distinguishable from a real score of `0`. -/
theorem claim_c1_grid_builder (aggs : List (Key × AggCell))
    (hka : (aggs.all fun p => (decodeKey p.1).isSome) = true)
    (hnd : (aggs.map Prod.fst).Nodup) :
    ∃ hm : HeatmapData, buildGrid aggs = some hm ∧
      hm.grid.length = hm.axis2.length ∧
      (∀ row ∈ hm.grid, row.length = hm.axis1.length) ∧
      hm.axis2.length =
        (aggs.filterMap (fun p => (decodeKey p.1).map Prod.snd)).dedup.length ∧
      hm.axis1.length =
        (aggs.filterMap (fun p => (decodeKey p.1).map Prod.fst)).dedup.length ∧
      hm.axis1.Nodup ∧ hm.axis2.Nodup ∧
      hm.axis1.Pairwise (fun a b => strLe a b = true) ∧
      hm.axis2.Pairwise (fun a b => strLe a b = true) ∧
      (∀ v, v ∈ hm.axis1 ↔ ∃ p ∈ aggs, ∃ b, decodeKey p.1 = some (v, b)) ∧
      (∀ v, v ∈ hm.axis2 ↔ ∃ p ∈ aggs, ∃ a, decodeKey p.1 = some (a, v)) ∧
      (∀ p ∈ aggs, ∀ v1 v2, decodeKey p.1 = some (v1, v2) →
        ∃ i j, i < hm.axis2.length ∧ j < hm.axis1.length ∧
          hm.axis2.getD i [] = v2 ∧ hm.axis1.getD j [] = v1 ∧
          (hm.grid.getD i []).getD j none = some p.2.score ∧
          ∀ i' j', i' < hm.axis2.length → j' < hm.axis1.length →
            hm.axis2.getD i' [] = v2 → hm.axis1.getD j' [] = v1 →
            i' = i ∧ j' = j) ∧
      (∀ v1 v2 i j, v1 ∈ hm.axis1 → v2 ∈ hm.axis2 →
        encodeKey v1 v2 ∉ aggs.map Prod.fst →
        i < hm.axis2.length → j < hm.axis1.length →
        hm.axis2.getD i [] = v2 → hm.axis1.getD j [] = v1 →
        (hm.grid.getD i []).getD j none = none ∧
          (hm.grid.getD i []).getD j none ≠ some 0) := by
  have hk : ∀ p ∈ aggs, (decodeKey p.1).isSome = true := by
    intro p hp
    exact List.all_eq_true.mp hka p hp
  refine ⟨⟨gridAxis1 aggs, gridAxis2 aggs, gridCells aggs⟩, buildGrid_eq hk,
    ?_, ?_, ?_, ?_, ?_, ?_, ?_, ?_, ?_, ?_, ?_, ?_⟩
  · exact List.length_map _ _
  · intro row hrow
    obtain ⟨v2, _, hr⟩ := List.mem_map.mp hrow
    rw [← hr]
    exact List.length_map _ _
  · exact length_gridAxis2 hk
  · exact length_gridAxis1 hk
  · exact nodup_gridAxis1 aggs
  · exact nodup_gridAxis2 aggs
  · exact sorted_gridAxis1 aggs
  · exact sorted_gridAxis2 aggs
  · intro v
    exact mem_gridAxis1_iff hk
  · intro v
    exact mem_gridAxis2_iff hk
  · intro p hp v1 v2 hd
    have h1 : v1 ∈ gridAxis1 aggs := (mem_gridAxis1_iff hk).mpr ⟨p, hp, v2, hd⟩
    have h2 : v2 ∈ gridAxis2 aggs := (mem_gridAxis2_iff hk).mpr ⟨p, hp, v1, hd⟩
    obtain ⟨j, hj, hgj⟩ := (mem_iff_getD ([] : Val)).mp h1
    obtain ⟨i, hi, hgi⟩ := (mem_iff_getD ([] : Val)).mp h2
    obtain ⟨_, _, hkey⟩ := decodeKey_eq_some_iff.mp hd
    have hlook : lookupKey aggs (encodeKey v1 v2) = some p.2 := by
      rw [← hkey]
      exact lookupKey_eq_some_of_mem hnd (Prod.mk.eta.symm ▸ hp)
    refine ⟨i, j, hi, hj, hgi, hgj, ?_, ?_⟩
    · rw [gridCells_getD hi hj, hgj, hgi, hlook]
      rfl
    · intro i' j' hi' hj' hgi' hgj'
      constructor
      · exact nodup_getD_inj [] (nodup_gridAxis2 aggs) i' i hi' hi
          (by rw [hgi', hgi])
      · exact nodup_getD_inj [] (nodup_gridAxis1 aggs) j' j hj' hj
          (by rw [hgj', hgj])
  · intro v1 v2 i j _ _ habsent hi hj hgi hgj
    have hlook : lookupKey aggs (encodeKey v1 v2) = none :=
      lookupKey_eq_none_iff.mpr habsent
    constructor
    · rw [gridCells_getD hi hj, hgj, hgi, hlook]
      rfl
    · rw [gridCells_getD hi hj, hgj, hgi, hlook]
      simp

/-- Witness for C1 at the spec's worked example slice. -/
theorem claim_c1_witness :
    ((aggsEx.all fun p => (decodeKey p.1).isSome) = true) ∧
      (aggsEx.map Prod.fst).Nodup ∧ (buildGrid aggsEx).isSome = true := by
  refine ⟨by decide, by decide, ?_⟩
  obtain ⟨hm, h, _⟩ := claim_c1_grid_builder aggsEx (by decide) (by decide)
  rw [h]
  rfl

theorem getD_set_ne {α : Type _} (d : α) :
    ∀ (l : List α) (i j : ℕ) (a : α), i ≠ j →
      (l.set i a).getD j d = l.getD j d
  | [], _, _, _, _ => rfl
  | _ :: _, 0, 0, _, h => absurd rfl h
  | _ :: _, 0, _ + 1, _, _ => rfl
  | _ :: _, _ + 1, 0, _, _ => rfl
  | _ :: xs, i + 1, j + 1, a, h =>
    getD_set_ne d xs i j a (fun he => h (by rw [he]))

theorem getD_append_left {α : Type _} (d : α) :
    ∀ (l l' : List α) (j : ℕ), j < l.length →
      (l ++ l').getD j d = l.getD j d
  | [], _, _, h => absurd h (by simp)
  | _ :: _, _, 0, _ => rfl
  | _ :: xs, l', j + 1, h => getD_append_left d xs l' j (by simpa using h)

/-- C3 (amended): the decode operation succeeds exactly on keys containing
exactly one delimiter, splitting there into the delimiter-free pieces
before and after; a key with more than one delimiter (e.g. `"a-b-c"`) makes
decoding fail (the two-way unpack raises), rather than returning the prefix
before the first delimiter and the whole remainder. -/
theorem claim_c3_amended (k : Key) (a b : Val) :
    decodeKey k = some (a, b) ↔ delim ∉ a ∧ delim ∉ b ∧ k = encodeKey a b :=
  decodeKey_eq_some_iff

/-- C5: requesting a grouped (heatmap) calculation with equal grouping
dimensions makes the Generate Charts handler (ui.py lines 200-216) show
the validation error synchronously, and the external grouped engine is
never invoked for that request. -/
theorem claim_c5_equal_grouping (runGrouped : GroupedEngine) (s : Session)
    (colorScheme : String) (showLabels : Bool) (threshold : ℚ)
    (g1 g2 : String) (hTf : TimeFrame) (hSc : Scope) (h : g1 = g2) :
    (generateCharts runGrouped s .heatmap colorScheme showLabels threshold
        g1 g2 hTf hSc).validationError = true ∧
      (generateCharts runGrouped s .heatmap colorScheme showLabels threshold
        g1 g2 hTf hSc).engineInvoked = false := by
  subst h
  unfold generateCharts
  simp

/-- Witness for C5 at the grouping pair `("sector", "sector")`. -/
theorem claim_c5_witness :
    ("sector" : String) = "sector" ∧
      (generateCharts groupedEngineOk sessionEx .heatmap "Default" true 2
        "sector" "sector" .mid .S3).validationError = true ∧
      (generateCharts groupedEngineOk sessionEx .heatmap "Default" true 2
        "sector" "sector" .mid .S3).engineInvoked = false :=
  ⟨rfl,
    (claim_c5_equal_grouping groupedEngineOk sessionEx "Default" true 2
      "sector" "sector" .mid .S3 rfl).1,
    (claim_c5_equal_grouping groupedEngineOk sessionEx "Default" true 2
      "sector" "sector" .mid .S3 rfl).2⟩

/-- C6: when the external engine raises, the failing run aborts with the
propagated error and the previously populated result session (company
table, aggregated table, coverage, export bytes, handles) is left entirely
unchanged — for the run handler of ui.py lines 91-123 and for a failing
grouped run of ui.py lines 200-229 after a successful run. -/
theorem claim_c6_engine_failure_preserves_session :
    (∀ (e : CalcError) (tfs : List TimeFrame) (scs : List Scope) (am : ℕ)
        (s : Session),
      (runCalcHandler (Except.error e) tfs scs am s).1.companyScoresDf
          = s.companyScoresDf ∧
        (runCalcHandler (Except.error e) tfs scs am s).1.aggregatedDf
          = s.aggregatedDf ∧
        (runCalcHandler (Except.error e) tfs scs am s).1.coverage
          = s.coverage ∧
        (runCalcHandler (Except.error e) tfs scs am s).1.excelBytes
          = s.excelBytes ∧
        (runCalcHandler (Except.error e) tfs scs am s).1.provider
          = s.provider ∧
        (runCalcHandler (Except.error e) tfs scs am s).1.companies
          = s.companies ∧
        (runCalcHandler (Except.error e) tfs scs am s).1.amendedPortfolio
          = s.amendedPortfolio ∧
        (runCalcHandler (Except.error e) tfs scs am s).1.calculationComplete
          = s.calculationComplete ∧
        (runCalcHandler (Except.error e) tfs scs am s).2 = some e) ∧
    (∀ (runGrouped : GroupedEngine) (s : Session) (colorScheme : String)
        (showLabels : Bool) (threshold : ℚ) (g1 g2 : String)
        (hTf : TimeFrame) (hSc : Scope) (e : CalcError),
      g1 ≠ g2 →
      runGrouped s.provider s.companies [hTf] [hSc] s.aggMethod [g1, g2]
          = Except.error e →
      (generateCharts runGrouped s .heatmap colorScheme showLabels threshold
          g1 g2 hTf hSc).calcError = some e ∧
        (generateCharts runGrouped s .heatmap colorScheme showLabels
          threshold g1 g2 hTf hSc).sessionAfter = s) := by
  constructor
  · intro e tfs scs am s
    exact ⟨rfl, rfl, rfl, rfl, rfl, rfl, rfl, rfl, rfl⟩
  · intro runGrouped s colorScheme showLabels threshold g1 g2 hTf hSc e
      hne hfail
    unfold generateCharts
    simp only [if_pos rfl, hne, if_false, hfail]
    exact ⟨rfl, rfl⟩

/-- Witness for C6: a concrete failing grouped run after a populated
session leaves the session untouched. -/
theorem claim_c6_witness :
    ("sector" : String) ≠ "region" ∧
      groupedEngineFail sessionEx.provider sessionEx.companies
          [TimeFrame.mid] [Scope.S3] sessionEx.aggMethod ["sector", "region"]
        = Except.error "engine exception" ∧
      (generateCharts groupedEngineFail sessionEx .heatmap "Default" true 2
          "sector" "region" .mid .S3).sessionAfter = sessionEx ∧
      (runCalcHandler (Except.error "engine exception") [] [] 0
        sessionEx).1.companyScoresDf = sessionEx.companyScoresDf := by
  refine ⟨by decide, rfl, ?_, ?_⟩
  · exact (claim_c6_engine_failure_preserves_session.2 groupedEngineFail
      sessionEx "Default" true 2 "sector" "region" .mid .S3
      "engine exception" (by decide) rfl).2
  · exact (claim_c6_engine_failure_preserves_session.1 "engine exception"
      [] [] 0 sessionEx).1

/-- C7: the on-demand grouped calculation path (Generate Charts handler,
ui.py lines 200-229) never writes the session: after the handler returns,
every field of the session equals its value before the call, whatever the
chart type, groupings, and engine outcome; the grouped tree is only handed
to `render_charts`, never stored. -/
theorem claim_c7_grouped_never_stores (runGrouped : GroupedEngine)
    (s : Session) (chartType : ChartType) (colorScheme : String)
    (showLabels : Bool) (threshold : ℚ) (g1 g2 : String) (hTf : TimeFrame)
    (hSc : Scope) :
    (generateCharts runGrouped s chartType colorScheme showLabels threshold
      g1 g2 hTf hSc).sessionAfter = s := by
  unfold generateCharts
  split
  · split
    · rfl
    · split <;> rfl
  · rfl

/-- C8: the export serializer (actions.py lines 69-74) produces a workbook
with exactly two sheets, named "Company Scores" and "Aggregated Scores",
each being the corresponding input table rendered directly: a header row
followed by the data rows, with no row-index column prepended. -/
theorem claim_c8_export_sheets (companyScoresDf aggregatedDf : Table) :
    (serializeExport companyScoresDf aggregatedDf).length = 2 ∧
      (serializeExport companyScoresDf aggregatedDf).map Sheet.sheetName
        = ["Company Scores", "Aggregated Scores"] ∧
      ((serializeExport companyScoresDf aggregatedDf).getD 0
          ⟨"", []⟩).sheetRows
        = companyScoresDf.header.map Datum.str :: companyScoresDf.rows ∧
      ((serializeExport companyScoresDf aggregatedDf).getD 1
          ⟨"", []⟩).sheetRows
        = aggregatedDf.header.map Datum.str :: aggregatedDf.rows := by
  refine ⟨rfl, rfl, ?_, ?_⟩ <;> simp [serializeExport, excelRows]

/-- C9: the coverage computation is handed a defensive copy of the
amended-portfolio buffer (the `.copy()` of actions.py line 65), so even a
mutating external coverage function leaves the caller's own buffer
unchanged and still addressable after the call. -/
theorem claim_c9_defensive_copy
    (getPortfolioCoverage : Portfolio → Portfolio × ℚ)
    (store : List Portfolio) (r : ℕ) (h : r < store.length) :
    (coverageCall getPortfolioCoverage store r).1.getD r []
        = store.getD r [] ∧
      r < (coverageCall getPortfolioCoverage store r).1.length := by
  have hne : store.length ≠ r := fun he => absurd h (he ▸ lt_irrefl r)
  constructor
  · show ((store ++ [store.getD r []]).set store.length
        (getPortfolioCoverage
          ((store ++ [store.getD r []]).getD store.length [])).1).getD r []
      = store.getD r []
    rw [getD_set_ne [] _ store.length r _ hne,
      getD_append_left [] store _ r h]
  · show r < ((store ++ [store.getD r []]).set store.length
      (getPortfolioCoverage
        ((store ++ [store.getD r []]).getD store.length [])).1).length
    rw [List.length_set, List.length_append]
    exact Nat.lt_succ_of_lt h

/-- Witness for C9 with a coverage function that erases its argument. -/
theorem claim_c9_witness :
    0 < ([[(5 : ℚ)]] : List Portfolio).length ∧
      (coverageCall (fun _ => ([], 37)) [[(5 : ℚ)]] 0).1.getD 0 []
        = ([[(5 : ℚ)]] : List Portfolio).getD 0 [] :=
  ⟨by decide,
    (claim_c9_defensive_copy (fun _ => ([], 37)) [[(5 : ℚ)]] 0
      (by decide)).1⟩

/-- C10: the chart renderer (charts.py lines 41-56) draws, for bar,
scatter and line charts, exactly the company rows whose temperature score
is at most the threshold — rows above it are silently excluded — while the
heatmap path hands over the grouped aggregations unfiltered and its output
does not depend on the threshold at all. -/
theorem claim_c10_threshold_filter :
    (∀ (df : List CompanyRow) (adf : Table) (cov : ℚ) (cs : String)
        (sl : Bool) (th : ℚ) (g : Option GroupedAggs)
        (p : Option HeatmapParams),
      renderCharts df adf cov .bar cs sl th g p
        = .barChart
            (df.filter (fun r => decide (r.temperature_score ≤ th))) cs sl) ∧
    (∀ (df : List CompanyRow) (adf : Table) (cov : ℚ) (cs : String)
        (sl : Bool) (th : ℚ) (g : Option GroupedAggs)
        (p : Option HeatmapParams),
      renderCharts df adf cov .scatter cs sl th g p
        = .scatterPlot
            (df.filter (fun r => decide (r.temperature_score ≤ th))) cs sl) ∧
    (∀ (df : List CompanyRow) (adf : Table) (cov : ℚ) (cs : String)
        (sl : Bool) (th : ℚ) (g : Option GroupedAggs)
        (p : Option HeatmapParams),
      renderCharts df adf cov .line cs sl th g p
        = .lineChart
            (df.filter (fun r => decide (r.temperature_score ≤ th))) cs sl) ∧
    (∀ (df : List CompanyRow) (th : ℚ) (r : CompanyRow),
      r ∈ df.filter (fun r => decide (r.temperature_score ≤ th)) ↔
        r ∈ df ∧ r.temperature_score ≤ th) ∧
    (∀ (df : List CompanyRow) (adf : Table) (cov : ℚ) (cs : String)
        (sl : Bool) (th : ℚ) (g : GroupedAggs) (p : HeatmapParams),
      renderCharts df adf cov .heatmap cs sl th (some g) (some p)
        = .heatmapCall g p) ∧
    (∀ (df : List CompanyRow) (adf : Table) (cov : ℚ) (cs : String)
        (sl : Bool) (th th' : ℚ) (g : Option GroupedAggs)
        (p : Option HeatmapParams),
      renderCharts df adf cov .heatmap cs sl th g p
        = renderCharts df adf cov .heatmap cs sl th' g p) := by
  refine ⟨?_, ?_, ?_, ?_, ?_, ?_⟩
  · intro df adf cov cs sl th g p
    rfl
  · intro df adf cov cs sl th g p
    rfl
  · intro df adf cov cs sl th g p
    rfl
  · intro df th r
    simp [List.mem_filter]
  · intro df adf cov cs sl th g p
    rfl
  · intro df adf cov cs sl th th' g p
    cases g <;> cases p <;> rfl

end ITRUI
